import Mathlib

/-!
# Verification of the IPA helper core against its specification

Shallow embedding of the code in `src/src/protocol/ipa/mod.rs` and
`src/src/protocol/attribution/aggregate_credit.rs` (the IPA attribution
pipeline of a three-party MPC engine), together with spec-modelled
definitions for the sub-protocols whose sources are not part of the
repository slice (field and share algebra, sort primitives, attribution
sub-circuits).  The serialization layer is instantiated at the test
field `Fp31` and 40-bit match keys, the combination exercised by the
repository's own tests.
-/

namespace IpaSpec

/-! ## Byte-level serialization model (`IPAInputRow` wire format)

The repository defines `IPAInputRow { mk_shares, is_trigger_bit,
breakdown_key, trigger_value }`, its `Serializable` impl (field writes at
fixed offsets into a caller-provided buffer) and `from_byte_slice`
(alignment assert, then chunk-wise deserialization with `unwrap`).  The
component serializers (`Replicated<F>`, `XorReplicated<B>`) are not in
the slice and are modelled from the spec. -/

/-- A single byte of a wire buffer. -/
abbrev Byte := Fin 256

/-- Modelled from the spec: a residue of the small test prime field `Fp31`. -/
abbrev Fp31 := Fin 31

/-- Modelled from the spec: a 40-bit bit-array value (the match-key width). -/
abbrev MatchKeyVal := Fin (2 ^ 40)

/-- One helper's additively replicated share over `Fp31`: the pair `(l, r)`. -/
structure Replicated where
  l : Fp31
  r : Fp31
deriving DecidableEq

/-- One helper's XOR-replicated share of a 40-bit match key: the pair `(l, r)`. -/
structure XorReplicated where
  l : MatchKeyVal
  r : MatchKeyVal
deriving DecidableEq

/-- One secret-shared IPA input record held by one helper
(`IPAInputRow<F, B>` at `F = Fp31`, `B = MatchKey`). -/
structure IPAInputRow where
  mk_shares : XorReplicated
  is_trigger_bit : Replicated
  breakdown_key : Replicated
  trigger_value : Replicated
deriving DecidableEq

/-- Modelled from the spec: canonical little-endian size of one `Fp31` element. -/
def Fp31.SIZE_IN_BYTES : Nat := 1

/-- Modelled from the spec: `Replicated<Fp31>` serializes `l` then `r`. -/
def Replicated.SIZE_IN_BYTES : Nat := 2 * Fp31.SIZE_IN_BYTES

/-- Modelled from the spec: a 40-bit bit-array occupies five bytes;
`XorReplicated` serializes `l` then `r`. -/
def XorReplicated.SIZE_IN_BYTES : Nat := 10

/-- Size of one serialized `IPAInputRow`, as defined in the source:
`3 * Replicated::<F>::SIZE_IN_BYTES + XorReplicated::<B>::SIZE_IN_BYTES`. -/
def IPAInputRow.SIZE_IN_BYTES : Nat :=
  3 * Replicated.SIZE_IN_BYTES + XorReplicated.SIZE_IN_BYTES

/-- Truncate a natural number to one byte. -/
def byteOf (n : Nat) : Byte := ⟨n % 256, Nat.mod_lt n (by decide)⟩

/-- Modelled from the spec: little-endian canonical encoding of one `Fp31`
element (one byte). -/
def serFp31 (x : Fp31) : List Byte :=
  [⟨x.val, Nat.lt_of_lt_of_le x.isLt (by decide)⟩]

/-- Modelled from the spec: little-endian encoding of a 40-bit bit-array
value (five bytes). -/
def serMK (x : MatchKeyVal) : List Byte :=
  [byteOf x.val, byteOf (x.val / 256), byteOf (x.val / 65536),
   byteOf (x.val / 16777216), byteOf (x.val / 4294967296)]

/-- Modelled from the spec: `Replicated<Fp31>` serializes `l` then `r`. -/
def serRep (s : Replicated) : List Byte := serFp31 s.l ++ serFp31 s.r

/-- Modelled from the spec: `XorReplicated<MatchKey>` serializes `l` then `r`. -/
def serXorRep (s : XorReplicated) : List Byte := serMK s.l ++ serMK s.r

/-- Reassemble a 40-bit value from five little-endian bytes. -/
def mkOfBytes (b0 b1 b2 b3 b4 : Byte) : MatchKeyVal :=
  ⟨b0.val + 256 * b1.val + 65536 * b2.val + 16777216 * b3.val +
      4294967296 * b4.val, by
    have h0 := b0.isLt
    have h1 := b1.isLt
    have h2 := b2.isLt
    have h3 := b3.isLt
    have h4 := b4.isLt
    omega⟩

/-- Modelled from the spec: decoding one `Fp31` byte fails (FieldOverflow)
when the byte is not a canonical residue. -/
def deserFp31 (b : Byte) : Option Fp31 :=
  if h : b.val < 31 then some ⟨b.val, h⟩ else none

/-- Modelled from the spec: `Replicated::<Fp31>::deserialize` reads `l` then
`r` from the first two bytes of the given buffer. -/
def deserRep : List Byte → Option Replicated
  | b0 :: b1 :: _ =>
    match deserFp31 b0, deserFp31 b1 with
    | some l, some r => some ⟨l, r⟩
    | _, _ => none
  | _ => none

/-- Modelled from the spec: `XorReplicated::<MatchKey>::deserialize` reads
`l` then `r` from the first ten bytes of the given buffer; every byte
pattern is a valid 40-bit bit-array, so only a short buffer fails. -/
def deserXorRep : List Byte → Option XorReplicated
  | b0 :: b1 :: b2 :: b3 :: b4 :: b5 :: b6 :: b7 :: b8 :: b9 :: _ =>
    some ⟨mkOfBytes b0 b1 b2 b3 b4, mkOfBytes b5 b6 b7 b8 b9⟩
  | _ => none

/-- Result of running Rust code whose only failure mode is a process
panic: `from_byte_slice` returns a plain iterator of rows, with no error
return path, and its `assert` and per-field `unwrap` calls terminate the
process on failure. -/
inductive PanicOr (α : Type) where
  | panicked
  | ok (a : α)
deriving DecidableEq

/-- Write `bytes` into `buf` at offset `off`, leaving the rest unchanged
(models `serialize(&mut buf[off..])`). -/
def writeAt (buf : List Byte) (off : Nat) (bytes : List Byte) : List Byte :=
  buf.take off ++ bytes ++ buf.drop (off + bytes.length)

/-- `<IPAInputRow as Serializable>::serialize`: writes `mk_shares` at
offset 0, `is_trigger_bit` at `XorReplicated::SIZE_IN_BYTES`,
`breakdown_key` and `trigger_value` at the two following
`Replicated::SIZE_IN_BYTES` offsets. -/
def rowSerializeInto (row : IPAInputRow) (buf : List Byte) : List Byte :=
  let b1 := writeAt buf 0 (serXorRep row.mk_shares)
  let b2 := writeAt b1 XorReplicated.SIZE_IN_BYTES (serRep row.is_trigger_bit)
  let b3 := writeAt b2 (XorReplicated.SIZE_IN_BYTES + Replicated.SIZE_IN_BYTES)
    (serRep row.breakdown_key)
  writeAt b3 (XorReplicated.SIZE_IN_BYTES + 2 * Replicated.SIZE_IN_BYTES)
    (serRep row.trigger_value)

/-- The four serialized fields of one row, concatenated in wire order. -/
def rowBytes (row : IPAInputRow) : List Byte :=
  serXorRep row.mk_shares ++ (serRep row.is_trigger_bit ++
    (serRep row.breakdown_key ++ serRep row.trigger_value))

/-- One row serialized into a fresh zeroed buffer of `SIZE_IN_BYTES` bytes. -/
def serializedBytes (row : IPAInputRow) : List Byte :=
  rowSerializeInto row (List.replicate IPAInputRow.SIZE_IN_BYTES 0)

/-- Serialize one row at byte offset `off` of `buf`
(models `row.serialize(&mut buf[off..])`). -/
def serializeAt (row : IPAInputRow) (off : Nat) (buf : List Byte) : List Byte :=
  buf.take off ++ rowSerializeInto row (buf.drop off)

/-- Repeated `serialize` calls at consecutive `SIZE_IN_BYTES` offsets,
as the repository's `serde` test performs them. -/
def serializeRows : List IPAInputRow → Nat → List Byte → List Byte
  | [], _, buf => buf
  | row :: rest, off, buf =>
    serializeRows rest (off + IPAInputRow.SIZE_IN_BYTES) (serializeAt row off buf)

/-- Back-to-back concatenation of the serialized rows. -/
def rowsBytes : List IPAInputRow → List Byte
  | [] => []
  | row :: rest => rowBytes row ++ rowsBytes rest

/-- Decode one `SIZE_IN_BYTES` chunk exactly as the closure inside
`from_byte_slice` does: deserialize `mk_shares` from the chunk, then the
three field shares from the suffixes starting at their offsets, calling
`unwrap` on every result (a failed field decode panics). -/
def decodeChunk (chunk : List Byte) : PanicOr IPAInputRow :=
  match deserXorRep chunk with
  | none => .panicked
  | some mk =>
    match deserRep (chunk.drop XorReplicated.SIZE_IN_BYTES) with
    | none => .panicked
    | some tb =>
      match deserRep (chunk.drop
          (XorReplicated.SIZE_IN_BYTES + Replicated.SIZE_IN_BYTES)) with
      | none => .panicked
      | some bd =>
        match deserRep (chunk.drop
            (XorReplicated.SIZE_IN_BYTES + 2 * Replicated.SIZE_IN_BYTES)) with
        | none => .panicked
        | some tv => .ok ⟨mk, tb, bd, tv⟩

/-- Consume the aligned buffer chunk by chunk (`input.chunks(SIZE)` with
one `decodeChunk` per chunk); a panic in any chunk aborts everything. -/
def chunksGo (buf : List Byte) : PanicOr (List IPAInputRow) :=
  if h : buf = [] then .ok []
  else
    match decodeChunk (buf.take IPAInputRow.SIZE_IN_BYTES) with
    | .panicked => .panicked
    | .ok row =>
      match chunksGo (buf.drop IPAInputRow.SIZE_IN_BYTES) with
      | .panicked => .panicked
      | .ok rest => .ok (row :: rest)
termination_by buf.length
decreasing_by
  have hlen : buf.length ≠ 0 := fun h0 => h (List.eq_nil_of_length_eq_zero h0)
  simp only [List.length_drop, IPAInputRow.SIZE_IN_BYTES, Replicated.SIZE_IN_BYTES,
    XorReplicated.SIZE_IN_BYTES, Fp31.SIZE_IN_BYTES]
  omega

/-- The alignment assertion at the head of `from_byte_slice`:
`assert_eq!(0, input.len() % Self::SIZE_IN_BYTES)`. -/
def alignOk (buf : List Byte) : Bool :=
  buf.length % IPAInputRow.SIZE_IN_BYTES == 0

/-- `IPAInputRow::from_byte_slice`: asserts alignment (panicking
otherwise), then yields the decoded rows in order.  The lazy iterator is
modelled by the list of all of its items, with any panic during
consumption propagated. -/
def fromByteSlice (buf : List Byte) : PanicOr (List IPAInputRow) :=
  if alignOk buf then chunksGo buf else .panicked

/-- `<IPAInputRow as Serializable>::deserialize`: the source body is
`todo!()`, which panics unconditionally on every input. -/
def IPAInputRow.deserialize (_buf : List Byte) : PanicOr IPAInputRow :=
  .panicked

/-! ## The IPA pipeline (`ipa` in `src/src/protocol/ipa/mod.rs`)

The top-level `ipa` composition is in the source: modulus conversion,
sort-permutation generation and permutation application are awaited with
`.unwrap()` (a sub-protocol failure there panics), while helper-bit
computation, accumulation, capping and aggregation are awaited with `?`
(their failures propagate as `Err`).  The sub-protocols themselves are
not in the repository slice; they are modelled from the spec at the
reconstructed-cleartext level. -/

/-- Abstract MPC error (the spec lists the kinds; represented here by a
message, as in the source every kind flows through one `Error` type). -/
abbrev MpcError := String

/-- Outcome of running the `ipa` query on one helper: a process panic,
an `Err` returned to the caller, or a full result. -/
inductive Outcome (α : Type) where
  | panicked
  | errored (e : MpcError)
  | ok (a : α)
deriving DecidableEq

/-- The error plumbing of `ipa`, stage for stage: `convert_all_bits`,
`generate_permutation_and_reveal_shuffled` and `apply_sort_permutation`
are unwrapped (`.await.unwrap()`, lines 203-236), so their errors panic;
`bitwise_equal` (helper bits), `accumulate_credit`, `credit_capping` and
`aggregate_credit` use `?` (lines 250-277), so their errors return
`Err`.  The stages are passed as fallible functions so that every
failure behavior of the missing sub-protocols is covered. -/
def ipaPlumbing {α β γ δ ε ζ η : Type}
    (convertAllBits : Except MpcError α)
    (generatePermutation : α → Except MpcError β)
    (applySortPermutation : α → β → Except MpcError γ)
    (computeHelperBits : γ → Except MpcError δ)
    (accumulateStage : γ → δ → Except MpcError ε)
    (cappingStage : ε → Except MpcError ζ)
    (aggregateStage : ζ → Except MpcError η) : Outcome η :=
  match convertAllBits with
  | .error _ => .panicked
  | .ok conv =>
    match generatePermutation conv with
    | .error _ => .panicked
    | .ok perm =>
      match applySortPermutation conv perm with
      | .error _ => .panicked
      | .ok sorted =>
        match computeHelperBits sorted with
        | .error e => .errored e
        | .ok hbs =>
          match accumulateStage sorted hbs with
          | .error e => .errored e
          | .ok acc =>
            match cappingStage acc with
            | .error e => .errored e
            | .ok capped =>
              match aggregateStage capped with
              | .error e => .errored e
              | .ok out => .ok out

/-- Cleartext IPA input record: the reconstruction of one
`IPAInputRow`'s shares across the three helpers (the test fixture's
`IPAInputTestRow`). -/
structure TestRow where
  match_key : Nat
  is_trigger_bit : Nat
  breakdown_key : Nat
  trigger_value : Nat
deriving DecidableEq

/-- Cleartext attribution record (`AttributionInputRow`, reconstructed). -/
structure AttributionInputRow where
  is_trigger_bit : Nat
  helper_bit : Nat
  breakdown_key : Nat
  credit : Nat
deriving DecidableEq

/-- Cleartext aggregate output record (`AggregateCreditOutputRow`,
reconstructed): a breakdown key and its total credit, both field
residues. -/
structure AggregateCreditOutputRow where
  breakdown_key : Nat
  credit : Nat
deriving DecidableEq

/-- Insert `a` into an already sorted list, before the first element
whose key is not below `a`'s: an earlier element never jumps over an
equal-keyed later one. -/
def orderedInsertBy {α : Type} (key : α → Nat) (a : α) : List α → List α
  | [] => [a]
  | b :: l => if key a ≤ key b then a :: b :: l else b :: orderedInsertBy key a l

/-- Modelled from the spec: the oblivious radix sort
(`generate_permutation_and_reveal_shuffled` followed by
`apply_sort_permutation`, neither in the repository slice) reorders the
rows into non-decreasing key order and is stable: among equal keys the
original relative order is preserved. -/
def stableSortBy {α : Type} (key : α → Nat) : List α → List α
  | [] => []
  | a :: l => orderedInsertBy key a (stableSortBy key l)

/-- Adjacent match-key equality bits of the sorted rows
(`bitwise_equal(row_i.mk_shares, row_next.mk_shares)`, reconstructed). -/
def pairwiseEqBits : List TestRow → List Nat
  | a :: b :: rest =>
    (if a.match_key = b.match_key then 1 else 0) :: pairwiseEqBits (b :: rest)
  | _ => []

/-- Zip the sorted rows with the helper bits into attribution records,
as `ipa` does (`credit` starts as `trigger_value`). -/
def toAttribution (sorted : List TestRow) (hbs : List Nat) :
    List AttributionInputRow :=
  List.zipWith (fun r hb =>
    ⟨r.is_trigger_bit, hb, r.breakdown_key, r.trigger_value⟩) sorted hbs

/-- Modelled from the spec: `accumulate_credit` (not in the repository
slice).  The spec's prose leaves the receiving rows ambiguous; per the
spec's design notes the Scenario B expected output is ground truth, and
the matching policy is: each row's credit becomes its own trigger value
plus the trigger values of the immediately following contiguous run of
same-user trigger rows (rows with `helper_bit = 1` and
`is_trigger_bit = 1`). -/
def accumulateCredit : List AttributionInputRow → List AttributionInputRow
  | [] => []
  | r :: rest =>
    match accumulateCredit rest with
    | [] => [r]
    | r1 :: rest' =>
      let carried := if r1.helper_bit = 1 ∧ r1.is_trigger_bit = 1 then r1.credit else 0
      { r with credit := r.credit + carried } :: r1 :: rest'

/-- Modelled from the spec: before capping, only source rows keep their
accumulated credit; trigger rows are zeroed (derived from the Scenario B
ground truth, which routes all credit through source rows). -/
def zeroTriggerCredits (rows : List AttributionInputRow) :
    List AttributionInputRow :=
  rows.map (fun r => if r.is_trigger_bit = 1 then { r with credit := 0 } else r)

/-- Modelled from the spec: the per-user cap scan of `credit_capping`
(not in the repository slice), exactly as the spec states it: scan each
user's block in order, keep a row's credit while the cumulative sum stays
within the cap, replace the crossing row's credit by the remaining
headroom, and zero all later rows of the block.  A row with
`helper_bit = 0` starts a new user block. -/
def capScan (cap : Nat) : Nat → List AttributionInputRow → List AttributionInputRow
  | _, [] => []
  | cum, r :: rest =>
    let cum0 := if r.helper_bit = 1 then cum else 0
    if cum0 + r.credit ≤ cap then
      r :: capScan cap (cum0 + r.credit) rest
    else
      { r with credit := cap - cum0 } :: capScan cap cap rest

/-- Modelled from the spec: `credit_capping` with per-user cap `cap`. -/
def creditCapping (cap : Nat) (rows : List AttributionInputRow) :
    List AttributionInputRow :=
  capScan cap 0 (zeroTriggerCredits rows)

/-- Total credit attributed to breakdown key `k`. -/
def totalCreditFor (rows : List AttributionInputRow) (k : Nat) : Nat :=
  ((rows.filter (fun r => r.breakdown_key == k)).map (fun r => r.credit)).sum

/-- Modelled from the spec: `aggregate_credit` (its reduce step is not in
the repository slice) appends one synthetic zero-credit row per breakdown
key in `[0, M)`, sorts by aggregation bit then breakdown key, prefix-sums
credits within each key and emits one output row per key.  At the
cleartext level the synthetic rows contribute nothing and the sort only
reorders, so the emitted row for key `k` carries the total credit of the
rows with breakdown key `k`; keys and totals are field residues mod `p`. -/
def aggregateCredit (p : Nat) (M : Nat) (rows : List AttributionInputRow) :
    List AggregateCreditOutputRow :=
  (List.range M).map (fun k => ⟨k % p, totalCreditFor rows k % p⟩)

/-- The `ipa` pipeline over the cleartext model: the source's stage
composition (`ipaPlumbing`) instantiated with the spec-modelled
sub-protocols, which always succeed.  `p` is the field order carried by
the context's type parameter; `_num_multi_bits` is the radix window
width of the oblivious sort, which does not affect the sorted result. -/
def ipaModel (p : Nat) (input_rows : List TestRow) (per_user_credit_cap : Nat)
    (max_breakdown_key : Nat) (_num_multi_bits : Nat) :
    Outcome (List AggregateCreditOutputRow) :=
  ipaPlumbing
    (Except.ok input_rows)
    (fun _ => Except.ok ())
    (fun conv _ => Except.ok (stableSortBy (fun r => r.match_key) conv))
    (fun sorted => Except.ok (0 :: pairwiseEqBits sorted))
    (fun sorted hbs => Except.ok (accumulateCredit (toAttribution sorted hbs)))
    (fun acc => Except.ok (creditCapping per_user_credit_cap acc))
    (fun capped => Except.ok (aggregateCredit p max_breakdown_key capped))

/-- The five Scenario B input records (`test_cases::Simple`):
match key, trigger bit, breakdown key, trigger value. -/
def scenarioB : List TestRow :=
  [⟨12345, 0, 1, 0⟩, ⟨12345, 0, 2, 0⟩, ⟨68362, 0, 1, 0⟩,
   ⟨12345, 1, 0, 5⟩, ⟨68362, 1, 0, 2⟩]

/-! ## Aggregation pre-sort
(`sort_by_aggregation_bit_and_breakdown_key` in
`src/src/protocol/attribution/aggregate_credit.rs`) -/

/-- Cleartext `CappedCreditsWithAggregationBit` record (reconstructed). -/
structure CappedCreditsWithAggregationBit where
  helper_bit : Nat
  aggregation_bit : Nat
  breakdown_key : Nat
  credit : Nat
deriving DecidableEq

/-- `sort_by_aggregation_bit`: one-bit oblivious sort keyed on the
aggregation bit (sort primitives modelled by the stable sort). -/
def sortByAggregationBit (input : List CappedCreditsWithAggregationBit) :
    List CappedCreditsWithAggregationBit :=
  stableSortBy (fun r => r.aggregation_bit) input

/-- `sort_by_aggregation_bit_and_breakdown_key`: sort by the aggregation
bit first, then stably by the bit-decomposed breakdown key, so the
second sort preserves the first within equal breakdown keys. -/
def sortByAggregationBitAndBreakdownKey
    (input : List CappedCreditsWithAggregationBit) :
    List CappedCreditsWithAggregationBit :=
  stableSortBy (fun r => r.breakdown_key) (sortByAggregationBit input)

/-- The 27 Scenario A rows (the `sort` test's `RAW_INPUT`):
helper bit, breakdown key, credit, aggregation bit per row, with the 19
real rows first (aggregation bit 1) and the 8 synthetic breakdown-key
placeholder rows after them (aggregation bit 0). -/
def scenarioARaw : List CappedCreditsWithAggregationBit :=
  [⟨1, 1, 3, 0⟩, ⟨1, 1, 4, 0⟩, ⟨1, 1, 4, 18⟩, ⟨1, 1, 0, 0⟩, ⟨1, 1, 0, 0⟩,
   ⟨1, 1, 0, 0⟩, ⟨1, 1, 0, 0⟩, ⟨1, 1, 0, 0⟩, ⟨1, 1, 1, 0⟩, ⟨1, 1, 0, 0⟩,
   ⟨1, 1, 2, 2⟩, ⟨1, 1, 0, 0⟩, ⟨1, 1, 0, 0⟩, ⟨1, 1, 2, 0⟩, ⟨1, 1, 2, 10⟩,
   ⟨1, 1, 0, 0⟩, ⟨1, 1, 0, 0⟩, ⟨1, 1, 5, 6⟩, ⟨1, 1, 0, 0⟩,
   ⟨0, 0, 0, 0⟩, ⟨0, 0, 1, 0⟩, ⟨0, 0, 2, 0⟩, ⟨0, 0, 3, 0⟩, ⟨0, 0, 4, 0⟩,
   ⟨0, 0, 5, 0⟩, ⟨0, 0, 6, 0⟩, ⟨0, 0, 7, 0⟩]

/-- The 27 Scenario A rows in the order of the test's `EXPECTED` block:
breakdown key ascending, and within each breakdown key the synthetic
aggregation-bit-0 row first, then the real rows in input order. -/
def scenarioAExpected : List CappedCreditsWithAggregationBit :=
  [⟨0, 0, 0, 0⟩, ⟨1, 1, 0, 0⟩, ⟨1, 1, 0, 0⟩, ⟨1, 1, 0, 0⟩, ⟨1, 1, 0, 0⟩,
   ⟨1, 1, 0, 0⟩, ⟨1, 1, 0, 0⟩, ⟨1, 1, 0, 0⟩, ⟨1, 1, 0, 0⟩, ⟨1, 1, 0, 0⟩,
   ⟨1, 1, 0, 0⟩, ⟨1, 1, 0, 0⟩,
   ⟨0, 0, 1, 0⟩, ⟨1, 1, 1, 0⟩,
   ⟨0, 0, 2, 0⟩, ⟨1, 1, 2, 2⟩, ⟨1, 1, 2, 0⟩, ⟨1, 1, 2, 10⟩,
   ⟨0, 0, 3, 0⟩, ⟨1, 1, 3, 0⟩,
   ⟨0, 0, 4, 0⟩, ⟨1, 1, 4, 0⟩, ⟨1, 1, 4, 18⟩,
   ⟨0, 0, 5, 0⟩, ⟨1, 1, 5, 6⟩,
   ⟨0, 0, 6, 0⟩,
   ⟨0, 0, 7, 0⟩]

/-! ## Serialization lemmas -/

lemma serXorRep_length (s : XorReplicated) : (serXorRep s).length = 10 := rfl

lemma serRep_length (s : Replicated) : (serRep s).length = 2 := rfl

lemma rowBytes_length (row : IPAInputRow) :
    (rowBytes row).length = IPAInputRow.SIZE_IN_BYTES := rfl

/-- Writing `C` at the seam of `A ++ B` keeps `A`, replaces the start of
`B` and keeps `B`'s tail. -/
lemma writeAt_append (A B C : List Byte) (n : Nat) (hA : A.length = n) :
    writeAt (A ++ B) n C = A ++ (C ++ B.drop C.length) := by
  subst hA
  unfold writeAt
  rw [List.take_left]
  have hdrop : (A ++ B).drop (A.length + C.length) = B.drop C.length := by
    calc (A ++ B).drop (A.length + C.length)
        = ((A ++ B).drop A.length).drop C.length := by
          rw [List.drop_drop]
      _ = B.drop C.length := by rw [List.drop_left]
  rw [hdrop, List.append_assoc]

/-- `serialize` on a buffer of at least `SIZE_IN_BYTES` bytes lays the
four fields down contiguously and keeps the buffer's tail. -/
lemma rowSerializeInto_eq (row : IPAInputRow) (buf : List Byte)
    (h : IPAInputRow.SIZE_IN_BYTES ≤ buf.length) :
    rowSerializeInto row buf = rowBytes row ++ buf.drop IPAInputRow.SIZE_IN_BYTES := by
  obtain ⟨mk, tb, bd, tv⟩ := row
  simp only [IPAInputRow.SIZE_IN_BYTES, Replicated.SIZE_IN_BYTES,
    Fp31.SIZE_IN_BYTES, XorReplicated.SIZE_IN_BYTES] at h ⊢
  have hlen : (16 : Nat) ≤ buf.length := by omega
  simp only [rowSerializeInto, XorReplicated.SIZE_IN_BYTES, Replicated.SIZE_IN_BYTES,
    Fp31.SIZE_IN_BYTES]
  have s1 : writeAt buf 0 (serXorRep mk) = serXorRep mk ++ buf.drop 10 := by
    unfold writeAt
    simp [serXorRep_length]
  rw [s1]
  have s2 : writeAt (serXorRep mk ++ buf.drop 10) 10 (serRep tb) =
      serXorRep mk ++ (serRep tb ++ (buf.drop 10).drop 2) := by
    rw [writeAt_append _ _ _ 10 (serXorRep_length mk), serRep_length]
  have hd12 : (buf.drop 10).drop 2 = buf.drop 12 := by
    rw [List.drop_drop]
  rw [show (10 + 2 * 1 : Nat) = 12 from rfl, s2, hd12, ← List.append_assoc]
  have s3 : writeAt ((serXorRep mk ++ serRep tb) ++ buf.drop 12) 12 (serRep bd) =
      (serXorRep mk ++ serRep tb) ++ (serRep bd ++ (buf.drop 12).drop 2) := by
    rw [writeAt_append _ _ _ 12
      (by simp [List.length_append, serXorRep_length, serRep_length]), serRep_length]
  have hd14 : (buf.drop 12).drop 2 = buf.drop 14 := by
    rw [List.drop_drop]
  rw [show (10 + 2 * (2 * 1) : Nat) = 14 from rfl, s3, hd14, ← List.append_assoc]
  have s4 : writeAt (((serXorRep mk ++ serRep tb) ++ serRep bd) ++ buf.drop 14) 14
      (serRep tv) =
      ((serXorRep mk ++ serRep tb) ++ serRep bd) ++ (serRep tv ++ (buf.drop 14).drop 2) := by
    rw [writeAt_append _ _ _ 14
      (by simp [List.length_append, serXorRep_length, serRep_length]), serRep_length]
  have hd16 : (buf.drop 14).drop 2 = buf.drop 16 := by
    rw [List.drop_drop]
  rw [s4, hd16, rowBytes]
  simp [List.append_assoc]

/-- Serializing into a fresh zeroed row buffer yields exactly the four
concatenated fields. -/
lemma serializedBytes_eq (row : IPAInputRow) : serializedBytes row = rowBytes row := by
  unfold serializedBytes
  rw [rowSerializeInto_eq row _ (by simp)]
  have : (List.replicate IPAInputRow.SIZE_IN_BYTES (0 : Byte)).drop
      IPAInputRow.SIZE_IN_BYTES = [] := by
    rw [List.drop_replicate]
    simp
  rw [this, List.append_nil]

/-- Decoding the little-endian bytes of a 40-bit pair recovers the pair. -/
lemma deserXorRep_serXorRep (s : XorReplicated) (rest : List Byte) :
    deserXorRep (serXorRep s ++ rest) = some s := by
  rcases s with ⟨⟨lv, hl⟩, ⟨rv, hr⟩⟩
  simp only [serXorRep, serMK, byteOf, List.cons_append, List.nil_append, deserXorRep,
    mkOfBytes, Option.some.injEq, XorReplicated.mk.injEq, Fin.mk.injEq]
  constructor <;> omega

/-- Decoding the canonical bytes of a replicated `Fp31` pair recovers it. -/
lemma deserRep_serRep (s : Replicated) (rest : List Byte) :
    deserRep (serRep s ++ rest) = some s := by
  rcases s with ⟨⟨lv, hl⟩, ⟨rv, hr⟩⟩
  simp only [serRep, serFp31, List.cons_append, List.nil_append, deserRep, deserFp31]
  rw [dif_pos hl, dif_pos hr]

/-- One `from_byte_slice` chunk decode inverts the row serialization. -/
lemma decodeChunk_rowBytes (row : IPAInputRow) :
    decodeChunk (rowBytes row) = .ok row := by
  obtain ⟨mk, tb, bd, tv⟩ := row
  have d10 : (rowBytes ⟨mk, tb, bd, tv⟩).drop 10 =
      serRep tb ++ (serRep bd ++ serRep tv) :=
    List.drop_left' (serXorRep_length mk)
  have d12 : (rowBytes ⟨mk, tb, bd, tv⟩).drop 12 = serRep bd ++ serRep tv := by
    unfold rowBytes
    rw [← List.append_assoc]
    exact List.drop_left' (by simp [List.length_append, serXorRep_length, serRep_length])
  have d14 : (rowBytes ⟨mk, tb, bd, tv⟩).drop 14 = serRep tv := by
    unfold rowBytes
    rw [← List.append_assoc, ← List.append_assoc]
    have : serRep tv = serRep tv ++ [] := by simp
    rw [this]
    exact List.drop_left' (by simp [List.length_append, serXorRep_length, serRep_length])
  simp only [decodeChunk, XorReplicated.SIZE_IN_BYTES, Replicated.SIZE_IN_BYTES,
    Fp31.SIZE_IN_BYTES]
  rw [show (10 + 2 * 1 : Nat) = 12 from rfl, show (10 + 2 * (2 * 1) : Nat) = 14 from rfl]
  rw [d10, d12, d14]
  rw [show rowBytes ⟨mk, tb, bd, tv⟩ = serXorRep mk ++
    (serRep tb ++ (serRep bd ++ serRep tv)) from rfl]
  rw [deserXorRep_serXorRep, deserRep_serRep, deserRep_serRep]
  have htv : serRep tv = serRep tv ++ [] := by simp
  rw [htv, deserRep_serRep]

/-- The chunk loop on the empty buffer yields no rows. -/
lemma chunksGo_nil : chunksGo [] = .ok [] := by
  unfold chunksGo
  simp

/-- The chunk loop peels one serialized row off the front of the buffer. -/
lemma chunksGo_cons (row : IPAInputRow) (rest : List Byte) :
    chunksGo (rowBytes row ++ rest) =
      match chunksGo rest with
      | .panicked => .panicked
      | .ok rs => .ok (row :: rs) := by
  have hlen : (rowBytes row).length = IPAInputRow.SIZE_IN_BYTES := rowBytes_length row
  have hne : rowBytes row ++ rest ≠ [] := by
    intro h
    have h0 : (rowBytes row ++ rest).length = 0 := by rw [h]; rfl
    rw [List.length_append, hlen] at h0
    simp [IPAInputRow.SIZE_IN_BYTES, Replicated.SIZE_IN_BYTES, Fp31.SIZE_IN_BYTES,
      XorReplicated.SIZE_IN_BYTES] at h0
  rw [chunksGo]
  rw [dif_neg hne, List.take_left' hlen, List.drop_left' hlen, decodeChunk_rowBytes]

/-- The chunk loop inverts the back-to-back serialization of any row list. -/
lemma chunksGo_rowsBytes (rows : List IPAInputRow) :
    chunksGo (rowsBytes rows) = .ok rows := by
  induction rows with
  | nil => exact chunksGo_nil
  | cons row rest ih =>
    rw [rowsBytes, chunksGo_cons, ih]

lemma rowsBytes_length (rows : List IPAInputRow) :
    (rowsBytes rows).length = rows.length * IPAInputRow.SIZE_IN_BYTES := by
  induction rows with
  | nil => rfl
  | cons row rest ih =>
    rw [rowsBytes, List.length_append, rowBytes_length, ih, List.length_cons]
    ring

/-- Repeated `serialize` calls at consecutive offsets, run after an
already-written region `A`, fill the zero region with the rows'
back-to-back bytes. -/
lemma serializeRows_append (rows : List IPAInputRow) (A buf : List Byte)
    (h : buf.length = rows.length * IPAInputRow.SIZE_IN_BYTES) :
    serializeRows rows A.length (A ++ buf) = A ++ rowsBytes rows := by
  induction rows generalizing A buf with
  | nil =>
    have : buf = [] := List.eq_nil_of_length_eq_zero (by simpa using h)
    subst this
    simp [serializeRows, rowsBytes]
  | cons row rest ih =>
    rw [List.length_cons] at h
    have hbuf : IPAInputRow.SIZE_IN_BYTES ≤ buf.length := by
      rw [h]
      calc IPAInputRow.SIZE_IN_BYTES = 1 * IPAInputRow.SIZE_IN_BYTES := by ring
        _ ≤ (rest.length + 1) * IPAInputRow.SIZE_IN_BYTES :=
          Nat.mul_le_mul_right _ (by omega)
    rw [serializeRows]
    have hAt : serializeAt row A.length (A ++ buf) =
        (A ++ rowBytes row) ++ buf.drop IPAInputRow.SIZE_IN_BYTES := by
      unfold serializeAt
      rw [List.take_left, List.drop_left, rowSerializeInto_eq row buf hbuf,
        List.append_assoc]
    rw [hAt]
    have hlen2 : A.length + IPAInputRow.SIZE_IN_BYTES = (A ++ rowBytes row).length := by
      rw [List.length_append, rowBytes_length]
    rw [hlen2, ih (A ++ rowBytes row) (buf.drop IPAInputRow.SIZE_IN_BYTES)
      (by rw [List.length_drop, h]; ring_nf; omega)]
    rw [rowsBytes, List.append_assoc]

/-- Repeated `serialize` calls at offsets `0, SIZE, 2 * SIZE, ...` into a
zeroed buffer of `N * SIZE` bytes produce the rows' bytes back-to-back. -/
lemma serializeRows_eq (rows : List IPAInputRow) :
    serializeRows rows 0 (List.replicate (rows.length * IPAInputRow.SIZE_IN_BYTES) 0) =
      rowsBytes rows := by
  have h := serializeRows_append rows []
    (List.replicate (rows.length * IPAInputRow.SIZE_IN_BYTES) 0) (by simp)
  simpa using h

/-- Alignment holds for any back-to-back serialization. -/
lemma alignOk_rowsBytes (rows : List IPAInputRow) : alignOk (rowsBytes rows) = true := by
  rw [alignOk, rowsBytes_length]
  simp [Nat.mul_mod_left]

/-- A replicated `Fp31` pair fails to decode when its first byte is not a
canonical residue. -/
lemma deserRep_none_left (b0 b1 : Byte) (rest : List Byte) (h : 31 ≤ b0.val) :
    deserRep (b0 :: b1 :: rest) = none := by
  have h0 : deserFp31 b0 = none := by rw [deserFp31, dif_neg (by omega)]
  simp [deserRep, h0]

/-- A replicated `Fp31` pair fails to decode when its second byte is not a
canonical residue. -/
lemma deserRep_none_right (b0 b1 : Byte) (rest : List Byte) (h : 31 ≤ b1.val) :
    deserRep (b0 :: b1 :: rest) = none := by
  have h1 : deserFp31 b1 = none := by rw [deserFp31, dif_neg (by omega)]
  cases hb0 : deserFp31 b0 <;> simp [deserRep, hb0, h1]

/-- A chunk whose field region holds a byte outside the field panics the
chunk decoder, whichever field it is. -/
lemma decodeChunk_overflow
    (b0 b1 b2 b3 b4 b5 b6 b7 b8 b9 b10 b11 b12 b13 b14 b15 : Byte)
    (h : 31 ≤ b10.val ∨ 31 ≤ b11.val ∨ 31 ≤ b12.val ∨ 31 ≤ b13.val ∨
      31 ≤ b14.val ∨ 31 ≤ b15.val) :
    decodeChunk [b0, b1, b2, b3, b4, b5, b6, b7, b8, b9, b10, b11, b12, b13, b14, b15] =
      .panicked := by
  have e : decodeChunk
      [b0, b1, b2, b3, b4, b5, b6, b7, b8, b9, b10, b11, b12, b13, b14, b15] =
      match deserRep [b10, b11, b12, b13, b14, b15] with
      | none => .panicked
      | some tb =>
        match deserRep [b12, b13, b14, b15] with
        | none => .panicked
        | some bd =>
          match deserRep [b14, b15] with
          | none => .panicked
          | some tv =>
            .ok ⟨⟨mkOfBytes b0 b1 b2 b3 b4, mkOfBytes b5 b6 b7 b8 b9⟩, tb, bd, tv⟩ := rfl
  rw [e]
  rcases h with h | h | h | h | h | h
  · rw [deserRep_none_left _ _ _ h]
  · rw [deserRep_none_right _ _ _ h]
  · cases htb : deserRep [b10, b11, b12, b13, b14, b15] with
    | none => rfl
    | some tb => rw [deserRep_none_left _ _ _ h]
  · cases htb : deserRep [b10, b11, b12, b13, b14, b15] with
    | none => rfl
    | some tb => rw [deserRep_none_right _ _ _ h]
  · cases htb : deserRep [b10, b11, b12, b13, b14, b15] with
    | none => rfl
    | some tb =>
      cases hbd : deserRep [b12, b13, b14, b15] with
      | none => rfl
      | some bd => rw [deserRep_none_left _ _ _ h]
  · cases htb : deserRep [b10, b11, b12, b13, b14, b15] with
    | none => rfl
    | some tb =>
      cases hbd : deserRep [b12, b13, b14, b15] with
      | none => rfl
      | some bd => rw [deserRep_none_right _ _ _ h]

/-- An all-zero-share row, used as the concrete instance in witnesses. -/
def zeroRow : IPAInputRow := ⟨⟨0, 0⟩, ⟨0, 0⟩, ⟨0, 0⟩, ⟨0, 0⟩⟩

/-! ## Claim theorems: serialization (C4, C5, C6, C7, C10) -/

/-- C4: serializing any N rows back-to-back (repeated `serialize` calls
at consecutive `SIZE_IN_BYTES` offsets into an `N * SIZE_IN_BYTES` zeroed
buffer) and running `from_byte_slice` on the buffer yields exactly those
N rows in order, and re-serializing the yielded rows reproduces the
buffer byte-exactly. -/
theorem serde_round_trip (rows : List IPAInputRow) :
    fromByteSlice (serializeRows rows 0
        (List.replicate (rows.length * IPAInputRow.SIZE_IN_BYTES) 0)) = .ok rows
    ∧ ∀ ys, fromByteSlice (serializeRows rows 0
          (List.replicate (rows.length * IPAInputRow.SIZE_IN_BYTES) 0)) = .ok ys →
        serializeRows ys 0 (List.replicate (ys.length * IPAInputRow.SIZE_IN_BYTES) 0) =
          serializeRows rows 0 (List.replicate (rows.length * IPAInputRow.SIZE_IN_BYTES) 0) := by
  have hmain : fromByteSlice (serializeRows rows 0
      (List.replicate (rows.length * IPAInputRow.SIZE_IN_BYTES) 0)) = .ok rows := by
    rw [serializeRows_eq, fromByteSlice, if_pos (alignOk_rowsBytes rows),
      chunksGo_rowsBytes]
  refine ⟨hmain, fun ys hys => ?_⟩
  rw [hmain] at hys
  injection hys with hy
  rw [← hy]

/-- Witness for C4 at a concrete two-row input. -/
theorem serde_round_trip_witness :
    fromByteSlice (serializeRows [zeroRow, zeroRow] 0
        (List.replicate ([zeroRow, zeroRow].length * IPAInputRow.SIZE_IN_BYTES) 0)) =
      .ok [zeroRow, zeroRow]
    ∧ serializeRows [zeroRow, zeroRow] 0
        (List.replicate ([zeroRow, zeroRow].length * IPAInputRow.SIZE_IN_BYTES) 0) =
      serializeRows [zeroRow, zeroRow] 0
        (List.replicate ([zeroRow, zeroRow].length * IPAInputRow.SIZE_IN_BYTES) 0) :=
  ⟨(serde_round_trip [zeroRow, zeroRow]).1,
   (serde_round_trip [zeroRow, zeroRow]).2 [zeroRow, zeroRow]
     (serde_round_trip [zeroRow, zeroRow]).1⟩

/-- C5 counterexample: `IPAInputRow::deserialize` is `todo!()`, so it
panics on the buffer produced by `serialize` instead of returning the
row: the claimed single-item round trip through `deserialize` fails. -/
theorem deserialize_is_unimplemented :
    IPAInputRow.deserialize (serializedBytes zeroRow) = .panicked
    ∧ IPAInputRow.deserialize (serializedBytes zeroRow) ≠ .ok zeroRow :=
  ⟨rfl, by simp [IPAInputRow.deserialize]⟩

/-- C5 (amended): one iteration of `from_byte_slice` on the
`SIZE_IN_BYTES` buffer produced by `serialize(row)` succeeds and returns
`row` — the behavior `deserialize` is required to match once
implemented. -/
theorem from_byte_slice_single_round_trip (row : IPAInputRow) :
    fromByteSlice (serializedBytes row) = .ok [row] := by
  have hone : serializedBytes row = rowsBytes [row] := by
    rw [serializedBytes_eq, rowsBytes, rowsBytes, List.append_nil]
  rw [hone, fromByteSlice, if_pos (alignOk_rowsBytes [row]), chunksGo_rowsBytes]

/-- C6: a buffer whose length is not a multiple of `SIZE_IN_BYTES` makes
`from_byte_slice` fail fatally (the alignment assert panics, yielding no
rows); a buffer whose length is such a multiple passes the alignment
check. -/
theorem from_byte_slice_alignment (buf : List Byte) :
    (¬ IPAInputRow.SIZE_IN_BYTES ∣ buf.length → fromByteSlice buf = .panicked)
    ∧ (IPAInputRow.SIZE_IN_BYTES ∣ buf.length → alignOk buf = true) := by
  have halign : alignOk buf = true ↔ IPAInputRow.SIZE_IN_BYTES ∣ buf.length := by
    rw [alignOk, beq_iff_eq]
    simp only [IPAInputRow.SIZE_IN_BYTES, Replicated.SIZE_IN_BYTES, Fp31.SIZE_IN_BYTES,
      XorReplicated.SIZE_IN_BYTES]
    omega
  constructor
  · intro h
    have hc : ¬ alignOk buf = true := fun hc => h (halign.mp hc)
    rw [fromByteSlice, if_neg hc]
  · exact fun h => halign.mpr h

/-- Witness for C6: a 1-byte buffer is rejected, a 16-byte buffer passes
the alignment check. -/
theorem from_byte_slice_alignment_witness :
    fromByteSlice [(0 : Byte)] = .panicked
    ∧ alignOk (List.replicate IPAInputRow.SIZE_IN_BYTES (0 : Byte)) = true :=
  ⟨(from_byte_slice_alignment [0]).1 (by decide),
   (from_byte_slice_alignment (List.replicate IPAInputRow.SIZE_IN_BYTES 0)).2
     (by decide)⟩

/-- C7: `SIZE_IN_BYTES` equals the XOR-replicated size plus three
replicated sizes, and `serialize` writes the four fields contiguously in
the order `mk_shares`, `is_trigger_bit`, `breakdown_key`,
`trigger_value`, each field filling its own `SIZE_IN_BYTES`-sized
region. -/
theorem serialize_layout (row : IPAInputRow) (buf : List Byte)
    (h : buf.length = IPAInputRow.SIZE_IN_BYTES) :
    IPAInputRow.SIZE_IN_BYTES =
        XorReplicated.SIZE_IN_BYTES + 3 * Replicated.SIZE_IN_BYTES
    ∧ rowSerializeInto row buf =
        serXorRep row.mk_shares ++ (serRep row.is_trigger_bit ++
          (serRep row.breakdown_key ++ serRep row.trigger_value))
    ∧ (serXorRep row.mk_shares).length = XorReplicated.SIZE_IN_BYTES
    ∧ (serRep row.is_trigger_bit).length = Replicated.SIZE_IN_BYTES
    ∧ (serRep row.breakdown_key).length = Replicated.SIZE_IN_BYTES
    ∧ (serRep row.trigger_value).length = Replicated.SIZE_IN_BYTES := by
  refine ⟨by decide, ?_, rfl, rfl, rfl, rfl⟩
  rw [rowSerializeInto_eq row buf (le_of_eq h.symm)]
  have hdrop : buf.drop IPAInputRow.SIZE_IN_BYTES = [] :=
    List.drop_eq_nil_of_le (le_of_eq h)
  rw [hdrop, List.append_nil, rowBytes]

/-- Witness for C7 at the zero row and a zeroed row-sized buffer. -/
theorem serialize_layout_witness :
    IPAInputRow.SIZE_IN_BYTES =
        XorReplicated.SIZE_IN_BYTES + 3 * Replicated.SIZE_IN_BYTES
    ∧ rowSerializeInto zeroRow (List.replicate IPAInputRow.SIZE_IN_BYTES 0) =
        serXorRep zeroRow.mk_shares ++ (serRep zeroRow.is_trigger_bit ++
          (serRep zeroRow.breakdown_key ++ serRep zeroRow.trigger_value))
    ∧ (serXorRep zeroRow.mk_shares).length = XorReplicated.SIZE_IN_BYTES
    ∧ (serRep zeroRow.is_trigger_bit).length = Replicated.SIZE_IN_BYTES
    ∧ (serRep zeroRow.breakdown_key).length = Replicated.SIZE_IN_BYTES
    ∧ (serRep zeroRow.trigger_value).length = Replicated.SIZE_IN_BYTES :=
  serialize_layout zeroRow (List.replicate IPAInputRow.SIZE_IN_BYTES 0) (by decide)

/-- A run of well-formed serialized rows at the front of the buffer just
prepends its rows to whatever the rest of the buffer yields. -/
lemma chunksGo_rowsBytes_append (rows : List IPAInputRow) (tail : List Byte) :
    chunksGo (rowsBytes rows ++ tail) =
      match chunksGo tail with
      | .panicked => .panicked
      | .ok rs => .ok (rows ++ rs) := by
  induction rows with
  | nil =>
    rw [rowsBytes, List.nil_append]
    cases htail : chunksGo tail <;> simp
  | cons row rest ih =>
    rw [rowsBytes, List.append_assoc, chunksGo_cons, ih]
    cases htail : chunksGo tail <;> simp

/-- A chunk starting with sixteen explicit bytes holding a field byte
outside `Fp31` panics the chunk loop wherever it sits. -/
lemma chunksGo_overflow
    (b0 b1 b2 b3 b4 b5 b6 b7 b8 b9 b10 b11 b12 b13 b14 b15 : Byte)
    (rest : List Byte)
    (h : 31 ≤ b10.val ∨ 31 ≤ b11.val ∨ 31 ≤ b12.val ∨ 31 ≤ b13.val ∨
      31 ≤ b14.val ∨ 31 ≤ b15.val) :
    chunksGo ([b0, b1, b2, b3, b4, b5, b6, b7, b8, b9, b10, b11, b12, b13, b14, b15]
      ++ rest) = .panicked := by
  rw [chunksGo, dif_neg (by simp)]
  rw [List.take_left' (by simp [IPAInputRow.SIZE_IN_BYTES, Replicated.SIZE_IN_BYTES,
    Fp31.SIZE_IN_BYTES, XorReplicated.SIZE_IN_BYTES] :
    ([b0, b1, b2, b3, b4, b5, b6, b7, b8, b9, b10,
    b11, b12, b13, b14, b15] : List Byte).length = IPAInputRow.SIZE_IN_BYTES)]
  rw [decodeChunk_overflow _ _ _ _ _ _ _ _ _ _ _ _ _ _ _ _ h]

/-- C10: on an aligned buffer, a chunk byte in a field-share position
that exceeds the `Fp31` modulus makes consuming the `from_byte_slice`
iterator panic (the per-field `unwrap`), wherever the bad chunk sits:
the interface offers no recoverable error, only `PanicOr.panicked` or
decoded rows. -/
theorem from_byte_slice_overflow_panics (rows : List IPAInputRow)
    (b0 b1 b2 b3 b4 b5 b6 b7 b8 b9 b10 b11 b12 b13 b14 b15 : Byte)
    (rest : List Byte) (hrest : IPAInputRow.SIZE_IN_BYTES ∣ rest.length)
    (h : 31 ≤ b10.val ∨ 31 ≤ b11.val ∨ 31 ≤ b12.val ∨ 31 ≤ b13.val ∨
      31 ≤ b14.val ∨ 31 ≤ b15.val) :
    fromByteSlice (rowsBytes rows ++
      ([b0, b1, b2, b3, b4, b5, b6, b7, b8, b9, b10, b11, b12, b13, b14, b15]
        ++ rest)) = .panicked := by
  have halign : alignOk (rowsBytes rows ++
      ([b0, b1, b2, b3, b4, b5, b6, b7, b8, b9, b10, b11, b12, b13, b14, b15]
        ++ rest)) = true := by
    obtain ⟨m, hm⟩ := hrest
    rw [alignOk, beq_iff_eq]
    simp only [IPAInputRow.SIZE_IN_BYTES, Replicated.SIZE_IN_BYTES, Fp31.SIZE_IN_BYTES,
      XorReplicated.SIZE_IN_BYTES] at hm
    simp only [List.length_append, rowsBytes_length, hm,
      IPAInputRow.SIZE_IN_BYTES, Replicated.SIZE_IN_BYTES, Fp31.SIZE_IN_BYTES,
      XorReplicated.SIZE_IN_BYTES, List.length_cons, List.length_nil]
    omega
  rw [fromByteSlice, if_pos halign, chunksGo_rowsBytes_append,
    chunksGo_overflow _ _ _ _ _ _ _ _ _ _ _ _ _ _ _ _ rest h]

/-- Witness for C10: the byte 31 in the `is_trigger_bit` region of the
only chunk panics the decoder. -/
theorem from_byte_slice_overflow_panics_witness :
    fromByteSlice (rowsBytes [] ++
      ([0, 0, 0, 0, 0, 0, 0, 0, 0, 0, (⟨31, by decide⟩ : Byte), 0, 0, 0, 0, 0]
        ++ [])) = .panicked :=
  from_byte_slice_overflow_panics [] 0 0 0 0 0 0 0 0 0 0 ⟨31, by decide⟩ 0 0 0 0 0
    [] (by decide) (Or.inl (by decide))

/-! ## Claim theorems: pipeline and aggregation sort (C1, C2, C3, C8, C9) -/

/-- C1: on the five Scenario B records over `Fp31` with
`per_user_credit_cap = 3`, `max_breakdown_key = 3`, `num_multi_bits = 3`,
the `ipa` pipeline reconstructs to exactly the rows
`(0, 0), (1, 2), (2, 3)` in that order. -/
theorem ipa_scenario_b :
    ipaModel 31 scenarioB 3 3 3 = .ok [⟨0, 0⟩, ⟨1, 2⟩, ⟨2, 3⟩] := by decide

/-- C2: a successful `ipa` call returns exactly `max_breakdown_key` rows
whose reconstructed breakdown keys are `0, 1, ..., M - 1`; it never
returns a shorter vector. -/
theorem ipa_output_shape (p : Nat) (rows : List TestRow) (cap M nmb : Nat)
    (hM : M ≤ p) :
    ∀ out, ipaModel p rows cap M nmb = .ok out →
      out.length = M ∧
        out.map (fun r => r.breakdown_key) = List.range M := by
  intro out h
  simp only [ipaModel, ipaPlumbing] at h
  injection h with h
  subst h
  constructor
  · rw [aggregateCredit, List.length_map, List.length_range]
  · rw [aggregateCredit, List.map_map]
    have hmod : (List.range M).map
        ((fun r => AggregateCreditOutputRow.breakdown_key r) ∘ fun k =>
          (⟨k % p, totalCreditFor (creditCapping cap (accumulateCredit
            (toAttribution (stableSortBy (fun r => r.match_key) rows)
              (0 :: pairwiseEqBits (stableSortBy (fun r => r.match_key) rows)))))
            k % p⟩ : AggregateCreditOutputRow)) =
        (List.range M).map id := by
      refine List.map_congr_left (fun k hk => ?_)
      simp only [Function.comp, id]
      exact Nat.mod_eq_of_lt (Nat.lt_of_lt_of_le (List.mem_range.mp hk) hM)
    rw [hmod, List.map_id]

/-- Witness for C2 at the empty input over `Fp31` with three breakdown
keys. -/
theorem ipa_output_shape_witness :
    ([(⟨0, 0⟩ : AggregateCreditOutputRow), ⟨1, 0⟩, ⟨2, 0⟩]).length = 3
    ∧ ([(⟨0, 0⟩ : AggregateCreditOutputRow), ⟨1, 0⟩, ⟨2, 0⟩]).map
        (fun r => r.breakdown_key) = List.range 3 :=
  ipa_output_shape 31 [] 3 3 3 (by decide) [⟨0, 0⟩, ⟨1, 0⟩, ⟨2, 0⟩] (by decide)

/-- C3: on the 27 Scenario A rows, the chained aggregation pre-sort
returns the rows in the `EXPECTED` order: breakdown key ascending, the
aggregation-bit-0 row before the aggregation-bit-1 rows within each key,
and the original relative order preserved among equal
(breakdown key, aggregation bit) pairs. -/
theorem sort_scenario_a :
    sortByAggregationBitAndBreakdownKey scenarioARaw = scenarioAExpected := by
  decide

/-- C8 (amended): inside `ipa`, failures of helper-bit computation,
accumulation, capping or aggregation are surfaced to the caller as `Err`;
failures of modulus conversion, sort-permutation generation or
permutation application hit `.unwrap()` and panic instead; and an `ok`
result always comes from a fully successful pipeline, so no partial
share output is ever produced. -/
theorem ipa_error_propagation {α β γ δ ε ζ η : Type}
    (c : Except MpcError α) (g : α → Except MpcError β)
    (a : α → β → Except MpcError γ) (hb : γ → Except MpcError δ)
    (ac : γ → δ → Except MpcError ε) (cp : ε → Except MpcError ζ)
    (ag : ζ → Except MpcError η) :
    (∀ e, c = .error e → ipaPlumbing c g a hb ac cp ag = .panicked)
    ∧ (∀ x1 e, c = .ok x1 → g x1 = .error e →
        ipaPlumbing c g a hb ac cp ag = .panicked)
    ∧ (∀ x1 x2 e, c = .ok x1 → g x1 = .ok x2 → a x1 x2 = .error e →
        ipaPlumbing c g a hb ac cp ag = .panicked)
    ∧ (∀ x1 x2 x3 e, c = .ok x1 → g x1 = .ok x2 → a x1 x2 = .ok x3 →
        hb x3 = .error e → ipaPlumbing c g a hb ac cp ag = .errored e)
    ∧ (∀ x1 x2 x3 x4 e, c = .ok x1 → g x1 = .ok x2 → a x1 x2 = .ok x3 →
        hb x3 = .ok x4 → ac x3 x4 = .error e →
        ipaPlumbing c g a hb ac cp ag = .errored e)
    ∧ (∀ x1 x2 x3 x4 x5 e, c = .ok x1 → g x1 = .ok x2 → a x1 x2 = .ok x3 →
        hb x3 = .ok x4 → ac x3 x4 = .ok x5 → cp x5 = .error e →
        ipaPlumbing c g a hb ac cp ag = .errored e)
    ∧ (∀ x1 x2 x3 x4 x5 x6 e, c = .ok x1 → g x1 = .ok x2 → a x1 x2 = .ok x3 →
        hb x3 = .ok x4 → ac x3 x4 = .ok x5 → cp x5 = .ok x6 →
        ag x6 = .error e → ipaPlumbing c g a hb ac cp ag = .errored e)
    ∧ (∀ out, ipaPlumbing c g a hb ac cp ag = .ok out →
        ∃ x1 x2 x3 x4 x5 x6, c = .ok x1 ∧ g x1 = .ok x2 ∧ a x1 x2 = .ok x3 ∧
          hb x3 = .ok x4 ∧ ac x3 x4 = .ok x5 ∧ cp x5 = .ok x6 ∧
          ag x6 = .ok out) := by
  refine ⟨?_, ?_, ?_, ?_, ?_, ?_, ?_, ?_⟩
  · intro e h1
    simp [ipaPlumbing, h1]
  · intro x1 e h1 h2
    simp [ipaPlumbing, h1, h2]
  · intro x1 x2 e h1 h2 h3
    simp [ipaPlumbing, h1, h2, h3]
  · intro x1 x2 x3 e h1 h2 h3 h4
    simp [ipaPlumbing, h1, h2, h3, h4]
  · intro x1 x2 x3 x4 e h1 h2 h3 h4 h5
    simp [ipaPlumbing, h1, h2, h3, h4, h5]
  · intro x1 x2 x3 x4 x5 e h1 h2 h3 h4 h5 h6
    simp [ipaPlumbing, h1, h2, h3, h4, h5, h6]
  · intro x1 x2 x3 x4 x5 x6 e h1 h2 h3 h4 h5 h6 h7
    simp [ipaPlumbing, h1, h2, h3, h4, h5, h6, h7]
  · intro out h
    simp only [ipaPlumbing] at h
    cases hc : c with
    | error e =>
      simp only [hc] at h
      exact Outcome.noConfusion h
    | ok x1 =>
      simp only [hc] at h
      cases hg : g x1 with
      | error e =>
      simp only [hg] at h
      exact Outcome.noConfusion h
      | ok x2 =>
        simp only [hg] at h
        cases ha : a x1 x2 with
        | error e =>
      simp only [ha] at h
      exact Outcome.noConfusion h
        | ok x3 =>
          simp only [ha] at h
          cases hhb : hb x3 with
          | error e =>
      simp only [hhb] at h
      exact Outcome.noConfusion h
          | ok x4 =>
            simp only [hhb] at h
            cases hac : ac x3 x4 with
            | error e =>
      simp only [hac] at h
      exact Outcome.noConfusion h
            | ok x5 =>
              simp only [hac] at h
              cases hcp : cp x5 with
              | error e =>
      simp only [hcp] at h
      exact Outcome.noConfusion h
              | ok x6 =>
                simp only [hcp] at h
                cases hag : ag x6 with
                | error e =>
      simp only [hag] at h
      exact Outcome.noConfusion h
                | ok o =>
                  simp only [hag, Outcome.ok.injEq] at h
                  subst h
                  exact ⟨x1, x2, x3, x4, x5, x6, rfl, hg, ha, hhb, hac, hcp, hag⟩

/-- Witness for C8 (amended): a conversion failure panics, a helper-bit
failure is returned as an error. -/
theorem ipa_error_propagation_witness :
    ipaPlumbing (Except.error "conv" : Except MpcError Unit)
      (fun _ : Unit => (Except.ok () : Except MpcError Unit))
      (fun _ _ => (Except.ok () : Except MpcError Unit))
      (fun _ => (Except.ok () : Except MpcError Unit))
      (fun _ _ => (Except.ok () : Except MpcError Unit))
      (fun _ => (Except.ok () : Except MpcError Unit))
      (fun _ => (Except.ok () : Except MpcError Unit)) = .panicked
    ∧ ipaPlumbing (Except.ok () : Except MpcError Unit)
      (fun _ : Unit => (Except.ok () : Except MpcError Unit))
      (fun _ _ => (Except.ok () : Except MpcError Unit))
      (fun _ => (Except.error "hb" : Except MpcError Unit))
      (fun _ _ => (Except.ok () : Except MpcError Unit))
      (fun _ => (Except.ok () : Except MpcError Unit))
      (fun _ => (Except.ok () : Except MpcError Unit)) = .errored "hb" :=
  ⟨(ipa_error_propagation _ _ _ _ _ _ _).1 "conv" rfl,
   (ipa_error_propagation _ _ _ _ _ _ _).2.2.2.1 () () () "hb" rfl rfl rfl rfl⟩

/-- C8 counterexample: a failing modulus conversion reaches
`.await.unwrap()` inside `ipa` and panics; the query outcome is a panic,
not the `Err` return the claim requires. -/
theorem ipa_conversion_failure_panics :
    ipaPlumbing (Except.error "mod conv failed" : Except MpcError Unit)
      (fun _ : Unit => (Except.ok () : Except MpcError Unit))
      (fun _ _ => (Except.ok () : Except MpcError Unit))
      (fun _ => (Except.ok () : Except MpcError Unit))
      (fun _ _ => (Except.ok () : Except MpcError Unit))
      (fun _ => (Except.ok () : Except MpcError Unit))
      (fun _ => (Except.ok () : Except MpcError Unit)) = .panicked
    ∧ (Outcome.panicked : Outcome Unit) ≠ Outcome.errored "mod conv failed" :=
  ⟨rfl, by simp⟩

/-- C9: on the empty input slice, `ipa` succeeds with a vector of length
`max_breakdown_key` whose reconstructed credits are all 0 (and whose keys
are `0, 1, ..., M - 1`). -/
theorem ipa_empty_input (p cap M nmb : Nat) (hM : M ≤ p) :
    ipaModel p [] cap M nmb = .ok ((List.range M).map (fun k => ⟨k, 0⟩)) := by
  simp only [ipaModel, ipaPlumbing, stableSortBy, pairwiseEqBits, toAttribution,
    List.zipWith, accumulateCredit, creditCapping, zeroTriggerCredits, List.map_nil,
    capScan, aggregateCredit, totalCreditFor, List.filter_nil, List.sum_nil,
    Nat.zero_mod]
  have hmod : (List.range M).map (fun k =>
      (⟨k % p, 0⟩ : AggregateCreditOutputRow)) =
      (List.range M).map (fun k => (⟨k, 0⟩ : AggregateCreditOutputRow)) := by
    refine List.map_congr_left (fun k hk => ?_)
    rw [Nat.mod_eq_of_lt (Nat.lt_of_lt_of_le (List.mem_range.mp hk) hM)]
  rw [hmod]

/-- Witness for C9 over `Fp31` with three breakdown keys. -/
theorem ipa_empty_input_witness :
    ipaModel 31 [] 3 3 3 =
      .ok ((List.range 3).map (fun k => ⟨k, 0⟩)) :=
  ipa_empty_input 31 3 3 3 (by decide)

end IpaSpec
